import Mathlib

/-!
# ViteMap: verification of the chunk codec (src/vite.c, src/vite.h)

Shallow embedding of the ViteMap bitmap compression codec.  Buffers are
`List Nat` whose elements are bytes (`< 256` where it matters); machine
integers are `Nat` with explicit truncation where the C code truncates.
The SIMD primitives are embedded by their bit-level semantics:

* `popcount_256`     — vectored popcount over a 32-byte chunk;
* `extract_and_compact_256` — AVX-512 `maskz_compress_epi8` over the
  four 64-bit lanes of a chunk against the identity index table
  `indices[i] = i`: per lane it emits, in ascending order, the index of
  every set mask bit; concatenated over the lanes this is exactly the
  ascending list of set-bit positions `p < 256` (position
  `p = byte_index*8 + bit_index`, LSB first within a byte);
* `expand_and_scatter_256` — OR-accumulation of the rows of the
  `bit_lookup` table (`bit_lookup[v]` = the 256-bit value with only bit
  `v` set), embedded per output byte;
* `invert_256`       — bytewise XOR with 0xFF.
-/

def BUCKET_SIZE : Nat := 256
def BUCKET_SIZE_U8 : Nat := 32

/-- Number of set bits among bits 0..7 of a byte. -/
def popCount8 (b : Nat) : Nat :=
  ((List.range 8).filter (fun i => b.testBit i)).length

/-- `popcount_256` (src/vite.c): popcount of a 256-bit chunk, i.e. the sum
of the popcounts of its 32 bytes. -/
def popcount_256 (chunk : List Nat) : Nat :=
  (chunk.map popCount8).sum

/-- Bit `p` of a 32-byte chunk, in the codec's convention:
byte `p / 8`, bit `p % 8` (LSB first within a byte). -/
def chunkBit (chunk : List Nat) (p : Nat) : Bool :=
  (chunk.getD (p / 8) 0).testBit (p % 8)

/-- `extract_and_compact_256` (src/vite.c): the packed byte array of the
positions at which the chunk has a 1-bit, in ascending order.  The C
routine produces exactly this sequence lane by lane with
`_mm512_maskz_compress_epi8` on the identity index table; the up-to-64-byte
slack each lane store leaves past the valid prefix is overwritten by the
next store and never part of the frame. -/
def extract_and_compact_256 (chunk : List Nat) : List Nat :=
  (List.range BUCKET_SIZE).filter (fun p => chunkBit chunk p)

/-- Byte `j` of the `bit_lookup` table row for position `v`
(`bit_lookup[v]` is the 256-bit value with only bit `v` set). -/
def bit_lookup (v j : Nat) : Nat :=
  if v / 8 = j then 2 ^ (v % 8) else 0

/-- `expand_and_scatter_256` (src/vite.c): OR together `bit_lookup[src[i]]`
for every payload byte, producing the 32-byte chunk whose set bits are
exactly the payload positions.  Embedded per output byte `j`; the C code
accumulates the same OR on one 256-bit register and stores all 32 bytes. -/
def expand_and_scatter_256 (src : List Nat) : List Nat :=
  (List.range BUCKET_SIZE_U8).map
    (fun j => src.foldl (fun acc v => acc ||| bit_lookup v j) 0)

/-- `invert_256` (src/vite.c): bitwise complement of 32 bytes
(XOR of every byte with 0xFF). -/
def invert_256 (src : List Nat) : List Nat :=
  src.map (fun b => b ^^^ 255)

/-- The compression context (struct `Vitemap`, src/vite.h).  Pointers to
heap buffers become the buffers' contents.  `calloc` failure in
`vitemap_create` (NULL return) is outside the model: allocation always
succeeds here. -/
structure Vitemap where
  input : List Nat
  max_size : Nat
  num_buckets : Nat
  output : List Nat
  max_compressed_size : Nat
  output_size : Nat
  helper_bucket : List Nat
deriving DecidableEq, Repr

/-- `vitemap_create` (src/vite.c): rounds the requested size up to whole
32-byte buckets and allocates the zeroed `input`, `output` (with one extra
bucket of tail slack for `extract_and_compact_256`) and `helper_bucket`
buffers.  The remaining struct fields are zero from `calloc`. -/
def vitemap_create (size : Nat) : Vitemap :=
  let full_buckets := size / BUCKET_SIZE_U8
  let remaining_bytes := size % BUCKET_SIZE_U8
  let num_buckets := full_buckets + (if remaining_bytes > 0 then 1 else 0)
  let max_size := num_buckets * BUCKET_SIZE_U8
  let max_compressed_size := 4 + max_size + num_buckets * BUCKET_SIZE_U8
  { input := List.replicate max_size 0
    max_size := max_size
    num_buckets := num_buckets
    output := List.replicate (max_compressed_size + BUCKET_SIZE_U8) 0
    max_compressed_size := max_compressed_size
    output_size := 0
    helper_bucket := List.replicate BUCKET_SIZE_U8 0 }

/-- The 4-byte little-endian encoding of a `uint32_t` store
(`*(uint32_t *)output = size` on x86). -/
def u32_le (n : Nat) : List Nat :=
  [n % 256, n / 256 % 256, n / 65536 % 256, n / 16777216 % 256]

/-- One chunk record of the compressed stream: the header byte followed by
the payload, exactly as the classifier in `vitemap_compress` emits it.
The three branches mirror the source: sparse (`count < 32`), dense
(`256 - count < 32`, payload = set positions of the inverted chunk), raw
(header `32 | 0x80`, chunk copied verbatim). -/
def encode_bucket (chunk : List Nat) : List Nat :=
  let count := popcount_256 chunk
  if count < BUCKET_SIZE_U8 then
    count :: extract_and_compact_256 chunk
  else if BUCKET_SIZE - count < BUCKET_SIZE_U8 then
    ((BUCKET_SIZE - count) ||| 64) :: extract_and_compact_256 (invert_256 chunk)
  else
    (BUCKET_SIZE_U8 ||| 128) :: chunk

/-- The concatenated chunk records of `vitemap_compress`'s main loop:
one record per bucket, the input advancing 32 bytes per bucket. -/
def encode_buckets : Nat → List Nat → List Nat
  | 0, _ => []
  | n + 1, input =>
      encode_bucket (input.take BUCKET_SIZE_U8) ++
        encode_buckets n (input.drop BUCKET_SIZE_U8)

/-- Contents of `helper_bucket` after `vitemap_compress`'s loop: each dense
bucket overwrites it with the inverted chunk (`invert_256(input,
vm->helper_bucket)`); other buckets leave it alone. -/
def compress_helper : Nat → List Nat → List Nat → List Nat
  | 0, _, h => h
  | n + 1, input, h =>
      let chunk := input.take BUCKET_SIZE_U8
      let count := popcount_256 chunk
      let h' :=
        if count < BUCKET_SIZE_U8 then h
        else if BUCKET_SIZE - count < BUCKET_SIZE_U8 then invert_256 chunk
        else h
      compress_helper n (input.drop BUCKET_SIZE_U8) h'

/-- `vitemap_compress` (src/vite.c): writes the 4-byte size prefix and one
record per bucket into `vm->output`, returning the byte count written
(`result_size`, which accumulates `4` plus `1 + payload length` per
record and therefore equals the frame's length).  No size check is
performed: all `num_buckets` buckets are always encoded.  Model of the
output buffer: the frame overwrites the prefix of `output`; the up to 63
scratch bytes the compaction stores may zero past the frame are not
observable through the returned size and are modeled as preserved. -/
def vitemap_compress (vm : Vitemap) (size : Nat) : Nat × Vitemap :=
  let frame := u32_le size ++ encode_buckets vm.num_buckets vm.input
  (frame.length,
    { vm with
        output := frame ++ vm.output.drop frame.length
        helper_bucket := compress_helper vm.num_buckets vm.input vm.helper_bucket })

/-- `*(uint32_t *)compressed_data` on x86: little-endian read of the first
four bytes. -/
def read_u32_le (l : List Nat) : Nat :=
  l.getD 0 0 + 256 * l.getD 1 0 + 65536 * l.getD 2 0 + 16777216 * l.getD 3 0

/-- `vitemap_extract_decompressed_sizes` (src/vite.c): reads the 4-byte
prefix as the decompressed data size and rounds it up to whole buckets for
the required buffer size. -/
def vitemap_extract_decompressed_sizes (compressed_data : List Nat) : Nat × Nat :=
  let data_size := read_u32_le compressed_data
  let full_buckets := data_size / BUCKET_SIZE_U8
  let remaining_bytes := data_size % BUCKET_SIZE_U8
  (data_size, (full_buckets + (if remaining_bytes > 0 then 1 else 0)) * BUCKET_SIZE_U8)

/-- The 32-byte chunk one iteration of `vitemap_decompress`'s switch writes
at the output cursor.  `hd` is the header byte, `rest` the stream after it,
`out` the output buffer from the cursor on.  Category 0 scatters the
payload; category 1 scatters then inverts the freshly written chunk in
place; category 2 copies 32 bytes verbatim; the reserved category 3 has no
`case` in the source switch, so the output chunk keeps its prior contents. -/
def decode_step (hd : Nat) (rest out : List Nat) : List Nat :=
  let bucket_size := hd % 64
  let category := hd / 64
  if category = 0 then expand_and_scatter_256 (rest.take bucket_size)
  else if category = 1 then invert_256 (expand_and_scatter_256 (rest.take bucket_size))
  else if category = 2 then rest.take BUCKET_SIZE_U8
  else out.take BUCKET_SIZE_U8

/-- The `while (compressed_data < end)` loop of `vitemap_decompress`.
`remaining = end - compressed_data` (pointer difference; the loop exits as
soon as it is not positive, which truncated `Nat` subtraction renders as
`0`).  Each iteration consumes the header byte plus `bucket_size` stream
bytes and advances the output cursor 32 bytes.  `fuel` is a structural
bound on the iteration count; since every iteration decreases `remaining`
by at least one, `fuel = remaining` makes the bound never bind. -/
def decode_loop : Nat → Nat → List Nat → List Nat → List Nat
  | _, 0, _, out => out
  | 0, _ + 1, _, out => out
  | fuel + 1, r + 1, data, out =>
      let hd := data.headD 0
      let bucket_size := hd % 64
      let rest := data.tail
      decode_step hd rest out ++
        decode_loop fuel (r - bucket_size) (rest.drop bucket_size) (out.drop BUCKET_SIZE_U8)

/-- `vitemap_decompress` (src/vite.c): skips the 4-byte prefix and decodes
records while the cursor is before `compressed_data + size`, writing one
32-byte chunk per record into `decompressed_data` (whose prior contents
past the written region are returned unchanged). -/
def vitemap_decompress (compressed_data : List Nat) (size : Nat)
    (decompressed_data : List Nat) : List Nat :=
  decode_loop (size - 4) (size - 4) (compressed_data.drop 4) decompressed_data

/-! ## Bit-level lemmas about the SIMD primitives -/

theorem testBit_bit_lookup (v j i : Nat) :
    (bit_lookup v j).testBit i = (decide (v / 8 = j) && decide (v % 8 = i)) := by
  unfold bit_lookup
  by_cases h : v / 8 = j
  · by_cases hi : v % 8 = i
    · simp [h, hi, Nat.testBit_two_pow_self]
    · simp [h, hi, Nat.testBit_two_pow_of_ne hi]
  · simp [h, Nat.zero_testBit]

theorem testBit_foldl_lor (j i : Nat) :
    ∀ (ps : List Nat) (acc : Nat),
      (ps.foldl (fun a v => a ||| bit_lookup v j) acc).testBit i
        = (acc.testBit i || ps.any (fun v => (bit_lookup v j).testBit i)) := by
  intro ps
  induction ps with
  | nil => intro acc; simp
  | cons v t ih =>
      intro acc
      simp only [List.foldl_cons, List.any_cons, ih, Nat.testBit_lor, Bool.or_assoc]

theorem length_expand_and_scatter_256 (src : List Nat) :
    (expand_and_scatter_256 src).length = 32 := by
  simp [expand_and_scatter_256, BUCKET_SIZE_U8]

theorem mem_extract_and_compact_256 (chunk : List Nat) (p : Nat) :
    p ∈ extract_and_compact_256 chunk ↔ p < 256 ∧ chunkBit chunk p = true := by
  simp [extract_and_compact_256, List.mem_filter, List.mem_range, BUCKET_SIZE]

theorem pairwise_extract_and_compact_256 (chunk : List Nat) :
    List.Pairwise (· < ·) (extract_and_compact_256 chunk) :=
  (List.pairwise_lt_range 256).filter _

/-- Scatter is a left inverse of compaction: expanding the list of set-bit
positions of a valid 32-byte chunk reproduces the chunk. -/
theorem expand_extract (chunk : List Nat) (h32 : chunk.length = 32)
    (hb : ∀ b ∈ chunk, b < 256) :
    expand_and_scatter_256 (extract_and_compact_256 chunk) = chunk := by
  apply List.ext_getElem
  · simp [expand_and_scatter_256, h32, BUCKET_SIZE_U8]
  · intro j hj1 hj2
    have hj : j < 32 := by
      simpa [expand_and_scatter_256, BUCKET_SIZE_U8] using hj1
    simp only [expand_and_scatter_256, BUCKET_SIZE_U8]
    rw [List.getElem_map, List.getElem_range]
    apply Nat.eq_of_testBit_eq
    intro i
    rw [testBit_foldl_lor, Nat.zero_testBit, Bool.false_or]
    by_cases hi : i < 8
    · rw [Bool.eq_iff_iff, List.any_eq_true]
      constructor
      · rintro ⟨v, hv, hbit⟩
        rw [testBit_bit_lookup] at hbit
        have hv8 : v / 8 = j ∧ v % 8 = i := by simpa using hbit
        rw [mem_extract_and_compact_256] at hv
        have hveq : v = 8 * j + i := by omega
        have := hv.2
        rw [chunkBit, hv8.1, hv8.2] at this
        rwa [List.getD_eq_getElem chunk 0 (by omega)] at this
      · intro hbit
        refine ⟨8 * j + i, ?_, ?_⟩
        · rw [mem_extract_and_compact_256]
          refine ⟨by omega, ?_⟩
          rw [chunkBit]
          have h1 : (8 * j + i) / 8 = j := by omega
          have h2 : (8 * j + i) % 8 = i := by omega
          rw [h1, h2, List.getD_eq_getElem chunk 0 (by omega)]
          exact hbit
        · rw [testBit_bit_lookup]
          have h1 : (8 * j + i) / 8 = j := by omega
          have h2 : (8 * j + i) % 8 = i := by omega
          simp [h1, h2]
    · have hlhs : (extract_and_compact_256 chunk).any
          (fun v => (bit_lookup v j).testBit i) = false := by
        rw [List.any_eq_false]
        intro v hv
        rw [testBit_bit_lookup]
        have : v % 8 ≠ i := by omega
        simp [this]
      rw [hlhs]
      have hlt : chunk[j] < 2 ^ i := by
        have hbj : chunk[j] < 256 := hb _ (List.getElem_mem hj2)
        have hpow : (256 : Nat) ≤ 2 ^ i := by
          calc (256 : Nat) = 2 ^ 8 := by norm_num
          _ ≤ 2 ^ i := Nat.pow_le_pow_right (by norm_num) (by omega)
        omega
      exact (Nat.testBit_eq_false_of_lt hlt).symm

/-! ## Popcount and inversion lemmas -/

theorem countP_chunkBit (l : List Nat) :
    (List.range (8 * l.length)).countP (fun p => (l.getD (p / 8) 0).testBit (p % 8))
      = (l.map popCount8).sum := by
  induction l with
  | nil => simp
  | cons b t ih =>
      have hsplit : 8 * (b :: t).length = 8 + 8 * t.length := by
        simp [List.length_cons]; ring
      rw [hsplit, List.range_add 8 (8 * t.length), List.countP_append]
      have h1 : (List.range 8).countP (fun p => ((b :: t).getD (p / 8) 0).testBit (p % 8))
          = popCount8 b := by
        rw [List.countP_eq_length_filter]
        rw [List.filter_congr (q := fun p => b.testBit p) ?_]
        · simp [popCount8]
        · intro p hp
          rw [List.mem_range] at hp
          have h8 : p / 8 = 0 := by omega
          have h9 : p % 8 = p := by omega
          simp [h8, h9]
      have h2 : ((List.range (8 * t.length)).map (8 + ·)).countP
            (fun p => ((b :: t).getD (p / 8) 0).testBit (p % 8))
          = (t.map popCount8).sum := by
        rw [List.countP_map]
        rw [← ih]
        apply List.countP_congr
        intro p hp
        rw [List.mem_range] at hp
        have h8 : (8 + p) / 8 = p / 8 + 1 := by omega
        have h9 : (8 + p) % 8 = p % 8 := by omega
        simp only [Function.comp_apply, h8, h9, List.getD_cons_succ]
      rw [h1, h2]
      simp

/-- The compaction payload's length is the chunk's popcount: on each lane
the C code advances the output cursor by the lane's popcount. -/
theorem length_extract_and_compact_256 (chunk : List Nat) (h32 : chunk.length = 32) :
    (extract_and_compact_256 chunk).length = popcount_256 chunk := by
  rw [extract_and_compact_256, popcount_256, ← List.countP_eq_length_filter]
  have := countP_chunkBit chunk
  rw [h32] at this
  simpa [BUCKET_SIZE, chunkBit] using this

theorem popCount8_le (b : Nat) : popCount8 b ≤ 8 := by
  have := List.length_filter_le (fun i => b.testBit i) (List.range 8)
  simpa [popCount8] using this

theorem popcount_256_le (chunk : List Nat) (h32 : chunk.length = 32) :
    popcount_256 chunk ≤ 256 := by
  rw [popcount_256]
  have h := List.sum_le_card_nsmul (chunk.map popCount8) 8 ?_
  · simpa [h32] using h
  · intro x hx
    rw [List.mem_map] at hx
    obtain ⟨b, _, rfl⟩ := hx
    exact popCount8_le b

theorem length_invert_256 (src : List Nat) : (invert_256 src).length = src.length := by
  simp [invert_256]

theorem invert_256_lt (src : List Nat) (hb : ∀ b ∈ src, b < 256) :
    ∀ b ∈ invert_256 src, b < 256 := by
  intro b hbmem
  rw [invert_256, List.mem_map] at hbmem
  obtain ⟨a, ha, rfl⟩ := hbmem
  have h1 : a < 2 ^ 8 := by have := hb a ha; omega
  have h2 : (255 : Nat) < 2 ^ 8 := by norm_num
  have := Nat.xor_lt_two_pow h1 h2
  omega

theorem invert_256_invert_256 (src : List Nat) :
    invert_256 (invert_256 src) = src := by
  rw [invert_256, invert_256, List.map_map]
  have : ((fun b => b ^^^ 255) ∘ fun b => b ^^^ 255) = id := by
    funext b
    simp [Function.comp, Nat.xor_cancel_right]
  rw [this, List.map_id]

set_option maxRecDepth 100000 in
theorem popCount8_xor_255 (b : Nat) (hb : b < 256) :
    popCount8 (b ^^^ 255) + popCount8 b = 8 := by
  revert hb
  revert b
  decide

theorem popcount_256_invert_256 (chunk : List Nat) (h32 : chunk.length = 32)
    (hb : ∀ b ∈ chunk, b < 256) :
    popcount_256 (invert_256 chunk) = 256 - popcount_256 chunk := by
  have key : ∀ l : List Nat, (∀ b ∈ l, b < 256) →
      popcount_256 (invert_256 l) + popcount_256 l = 8 * l.length := by
    intro l
    induction l with
    | nil => intro _; simp [popcount_256, invert_256]
    | cons b t ih =>
        intro hl
        have hb' : b < 256 := hl b (List.mem_cons_self b t)
        have ht : ∀ x ∈ t, x < 256 := fun x hx => hl x (List.mem_cons_of_mem b hx)
        have := ih ht
        simp only [popcount_256, invert_256, List.map_cons, List.sum_cons,
          List.length_cons] at this ⊢
        have hx := popCount8_xor_255 b hb'
        omega
  have h := key chunk hb
  rw [h32] at h
  omega

/-! ## Decoder loop lemmas -/

theorem BUCKET_SIZE_eq : BUCKET_SIZE = 256 := rfl
theorem BUCKET_SIZE_U8_eq : BUCKET_SIZE_U8 = 32 := rfl

theorem decode_loop_zero (f : Nat) (data out : List Nat) :
    decode_loop f 0 data out = out := by
  cases f <;> rfl

theorem decode_loop_succ (f r : Nat) (data out : List Nat) :
    decode_loop (f + 1) (r + 1) data out
      = decode_step (data.headD 0) data.tail out ++
          decode_loop f (r - data.headD 0 % 64) (data.tail.drop (data.headD 0 % 64))
            (out.drop BUCKET_SIZE_U8) := rfl

theorem decode_loop_fuel_irrelevant :
    ∀ (f g r : Nat) (data out : List Nat), r ≤ f → r ≤ g →
      decode_loop f r data out = decode_loop g r data out := by
  intro f
  induction f with
  | zero =>
      intro g r data out hf hg
      have hr : r = 0 := by omega
      subst hr
      rw [decode_loop_zero, decode_loop_zero]
  | succ f ih =>
      intro g r data out hf hg
      cases r with
      | zero => rw [decode_loop_zero, decode_loop_zero]
      | succ r =>
          cases g with
          | zero => omega
          | succ g =>
              rw [decode_loop_succ, decode_loop_succ]
              congr 1
              exact ih g (r - data.headD 0 % 64) (data.tail.drop (data.headD 0 % 64))
                (out.drop BUCKET_SIZE_U8) (by omega) (by omega)

set_option maxRecDepth 100000 in
theorem lor_64_eq (d : Nat) (hd : d < 64) : d ||| 64 = 64 + d := by
  revert hd
  revert d
  decide

/-- Decoding one record produced by the classifier reproduces the encoded
chunk and hands the rest of the stream to the remaining iterations. -/
theorem decode_loop_record (chunk rest out : List Nat) (r : Nat)
    (h32 : chunk.length = 32) (hb : ∀ b ∈ chunk, b < 256) :
    decode_loop ((encode_bucket chunk).length + r) ((encode_bucket chunk).length + r)
      (encode_bucket chunk ++ rest) out
    = chunk ++ decode_loop r r rest (out.drop BUCKET_SIZE_U8) := by
  have hple : popcount_256 chunk ≤ 256 := popcount_256_le chunk h32
  by_cases h1 : popcount_256 chunk < 32
  · -- sparse record
    have henc : encode_bucket chunk
        = popcount_256 chunk :: extract_and_compact_256 chunk := by
      rw [encode_bucket]
      simp only [BUCKET_SIZE_U8_eq]
      rw [if_pos h1]
    set c := popcount_256 chunk with hc
    set E := extract_and_compact_256 chunk with hE
    have hlen : E.length = c := length_extract_and_compact_256 chunk h32
    rw [henc]
    have hshape : (c :: E).length + r = (c + r) + 1 := by
      simp [List.length_cons, hlen]
      omega
    rw [hshape]
    rw [show (c :: E) ++ rest = c :: (E ++ rest) from rfl, decode_loop_succ]
    simp only [List.headD_cons, List.tail_cons]
    have hc64 : c % 64 = c := Nat.mod_eq_of_lt (by omega)
    have hstep : decode_step c (E ++ rest) out = chunk := by
      rw [decode_step]
      have hcat : c / 64 = 0 := Nat.div_eq_of_lt (by omega)
      simp only [hc64, hcat, if_pos rfl]
      have htake : (E ++ rest).take c = E := by
        rw [← hlen]
        exact List.take_left E rest
      rw [htake, hE]
      exact expand_extract chunk h32 hb
    rw [hc64, hstep]
    have hdrop : (E ++ rest).drop c = rest := by
      rw [← hlen]
      exact List.drop_left E rest
    rw [hdrop, show c + r - c = r by omega]
    congr 1
    exact decode_loop_fuel_irrelevant (c + r) r r rest (out.drop BUCKET_SIZE_U8)
      (by omega) (le_refl r)
  · by_cases h2 : 256 - popcount_256 chunk < 32
    · -- dense record
      have hinvlen : (invert_256 chunk).length = 32 := by
        rw [length_invert_256, h32]
      have hinvb : ∀ b ∈ invert_256 chunk, b < 256 := invert_256_lt chunk hb
      have henc : encode_bucket chunk
          = ((256 - popcount_256 chunk) ||| 64)
              :: extract_and_compact_256 (invert_256 chunk) := by
        rw [encode_bucket]
        simp only [BUCKET_SIZE_U8_eq, BUCKET_SIZE_eq]
        rw [if_neg h1, if_pos h2]
      set d := 256 - popcount_256 chunk with hd
      set E := extract_and_compact_256 (invert_256 chunk) with hE
      have hlen : E.length = d := by
        rw [hE, length_extract_and_compact_256 (invert_256 chunk) hinvlen,
          popcount_256_invert_256 chunk h32 hb]
      have hhd : d ||| 64 = 64 + d := lor_64_eq d (by omega)
      rw [henc, hhd]
      have hshape : ((64 + d) :: E).length + r = (d + r) + 1 := by
        simp [List.length_cons, hlen]
        omega
      rw [hshape]
      rw [show ((64 + d) :: E) ++ rest = (64 + d) :: (E ++ rest) from rfl, decode_loop_succ]
      simp only [List.headD_cons, List.tail_cons]
      have hc64 : (64 + d) % 64 = d := by omega
      have hstep : decode_step (64 + d) (E ++ rest) out = chunk := by
        rw [decode_step]
        have hcat : (64 + d) / 64 = 1 := by omega
        simp only [hc64, hcat]
        rw [if_neg (by omega)]
        simp only [if_true, reduceIte]
        have htake : (E ++ rest).take d = E := by
          rw [← hlen]
          exact List.take_left E rest
        rw [htake, hE]
        rw [expand_extract (invert_256 chunk) hinvlen hinvb]
        exact invert_256_invert_256 chunk
      rw [hc64, hstep]
      have hdrop : (E ++ rest).drop d = rest := by
        rw [← hlen]
        exact List.drop_left E rest
      rw [hdrop, show d + r - d = r by omega]
      congr 1
      exact decode_loop_fuel_irrelevant (d + r) r r rest (out.drop BUCKET_SIZE_U8)
        (by omega) (le_refl r)
    · -- raw record
      have henc : encode_bucket chunk = 160 :: chunk := by
        rw [encode_bucket]
        simp only [BUCKET_SIZE_U8_eq, BUCKET_SIZE_eq]
        rw [if_neg h1, if_neg h2]
        have h160 : (32 : Nat) ||| 128 = 160 := by decide
        rw [h160]
      rw [henc]
      have hshape : (160 :: chunk).length + r = (32 + r) + 1 := by
        simp [List.length_cons, h32]
        omega
      rw [hshape]
      rw [show (160 :: chunk) ++ rest = 160 :: (chunk ++ rest) from rfl, decode_loop_succ]
      simp only [List.headD_cons, List.tail_cons]
      have hc64 : (160 : Nat) % 64 = 32 := by norm_num
      have hstep : decode_step 160 (chunk ++ rest) out = chunk := by
        rw [decode_step]
        have hcat : (160 : Nat) / 64 = 2 := by norm_num
        simp only [hc64, hcat]
        rw [if_neg (by omega), if_neg (by omega)]
        simp only [if_true, reduceIte]
        simp only [BUCKET_SIZE_U8_eq]
        rw [← h32]
        exact List.take_left chunk rest
      rw [hc64, hstep]
      have hdrop : (chunk ++ rest).drop 32 = rest := by
        rw [← h32]
        exact List.drop_left chunk rest
      rw [hdrop, show 32 + r - 32 = r by omega]
      congr 1
      exact decode_loop_fuel_irrelevant (32 + r) r r rest (out.drop BUCKET_SIZE_U8)
        (by omega) (le_refl r)

/-- Decoding the concatenated records of `n` buckets rewrites exactly the
first `32 * n` bytes of the output buffer with the original input, no
matter what follows the records in the stream. -/
theorem decode_encode_buckets :
    ∀ (n : Nat) (input junk out : List Nat),
      input.length = 32 * n → (∀ b ∈ input, b < 256) →
      decode_loop ((encode_buckets n input).length) ((encode_buckets n input).length)
          (encode_buckets n input ++ junk) out
        = input ++ out.drop (32 * n) := by
  intro n
  induction n with
  | zero =>
      intro input junk out hlen hb
      have hnil : input = [] := List.length_eq_zero.mp (by omega)
      subst hnil
      simp [encode_buckets, decode_loop_zero]
  | succ n ih =>
      intro input junk out hlen hb
      have htake32 : (input.take 32).length = 32 := List.length_take_of_le (by omega)
      have htb : ∀ b ∈ input.take 32, b < 256 := fun b hbm => hb b (List.take_subset 32 input hbm)
      have hdb : ∀ b ∈ input.drop 32, b < 256 := fun b hbm => hb b (List.drop_subset 32 input hbm)
      have hdlen : (input.drop 32).length = 32 * n := by
        rw [List.length_drop]
        omega
      have hunf : encode_buckets (n + 1) input
          = encode_bucket (input.take 32) ++ encode_buckets n (input.drop 32) := by
        rw [encode_buckets]
        simp only [BUCKET_SIZE_U8_eq]
      rw [hunf, List.length_append, List.append_assoc]
      rw [decode_loop_record (input.take 32) (encode_buckets n (input.drop 32) ++ junk)
        out (encode_buckets n (input.drop 32)).length htake32 htb]
      rw [ih (input.drop 32) junk (out.drop BUCKET_SIZE_U8) hdlen hdb]
      rw [← List.append_assoc, List.take_append_drop]
      simp only [BUCKET_SIZE_U8_eq]
      rw [List.drop_drop]
      congr 2
      omega

/-! ## Claim theorems -/

/-- C1 (amended). Round-trip: for a context whose input buffer holds `N`
data bytes (`N ≤ max_size`) followed by zero padding, decompressing the
frame produced by `vitemap_compress vm N` with the returned compressed
size writes exactly `32 * vm.num_buckets` bytes into the output buffer
(the compressor always encodes all `num_buckets` buckets, not just
`ceil(N/32)` of them); the first `N` written bytes equal the input data
and the written bytes past `N` are zero. -/
theorem C1_roundtrip_amended (vm : Vitemap) (N : Nat) (out : List Nat)
    (hlen : vm.input.length = 32 * vm.num_buckets)
    (hb : ∀ b ∈ vm.input, b < 256)
    (hmax : vm.max_size = 32 * vm.num_buckets)
    (hN : N ≤ vm.max_size)
    (hpad : ∀ b ∈ vm.input.drop N, b = 0) :
    vitemap_decompress (vitemap_compress vm N).2.output (vitemap_compress vm N).1 out
        = vm.input ++ out.drop (32 * vm.num_buckets)
    ∧ (vitemap_decompress (vitemap_compress vm N).2.output (vitemap_compress vm N).1 out).take N
        = vm.input.take N
    ∧ ∀ b ∈ ((vitemap_decompress (vitemap_compress vm N).2.output
          (vitemap_compress vm N).1 out).take (32 * vm.num_buckets)).drop N, b = 0 := by
  have hu32len : (u32_le N).length = 4 := rfl
  have hkey : vitemap_decompress (vitemap_compress vm N).2.output
      (vitemap_compress vm N).1 out = vm.input ++ out.drop (32 * vm.num_buckets) := by
    simp only [vitemap_compress]
    rw [vitemap_decompress]
    have hL : (u32_le N ++ encode_buckets vm.num_buckets vm.input).length
        = 4 + (encode_buckets vm.num_buckets vm.input).length := by
      rw [List.length_append, hu32len]
    rw [hL]
    have h4 : 4 + (encode_buckets vm.num_buckets vm.input).length - 4
        = (encode_buckets vm.num_buckets vm.input).length := by omega
    rw [h4]
    rw [List.append_assoc]
    rw [show (4 : Nat) = (u32_le N).length from rfl, List.drop_left]
    exact decode_encode_buckets vm.num_buckets vm.input _ out hlen hb
  refine ⟨hkey, ?_, ?_⟩
  · rw [hkey]
    exact List.take_append_of_le_length (by omega)
  · rw [hkey]
    have h32 : 32 * vm.num_buckets = vm.input.length := hlen.symm
    rw [h32, List.take_left]
    exact hpad

/-- C1 counterexample. With a context of two buckets (`vitemap_create 64`)
and a declared size of 32, the claim's `ceil(N/32)*32 = 32` written bytes
is wrong: `vitemap_compress` encodes both buckets, so decompressing the
frame overwrites 64 bytes of the output buffer, not 32. -/
theorem C1_counterexample :
    32 ≤ (vitemap_create 64).max_size ∧
    vitemap_decompress (vitemap_compress (vitemap_create 64) 32).2.output
        (vitemap_compress (vitemap_create 64) 32).1 (List.replicate 64 7)
      ≠ List.replicate 32 0 ++ (List.replicate 64 7).drop 32 := by
  decide

/-- Witness for C1: the amended round-trip at a concrete one-bucket
context whose input has one nonzero byte. -/
theorem C1_roundtrip_amended_witness :
    vitemap_decompress
        (vitemap_compress { vitemap_create 32 with input := (List.replicate 32 0).set 3 200 } 32).2.output
        (vitemap_compress { vitemap_create 32 with input := (List.replicate 32 0).set 3 200 } 32).1
        (List.replicate 32 5)
      = { vitemap_create 32 with input := (List.replicate 32 0).set 3 200 }.input
          ++ (List.replicate 32 5).drop
              (32 * { vitemap_create 32 with input := (List.replicate 32 0).set 3 200 }.num_buckets)
    ∧ (vitemap_decompress
        (vitemap_compress { vitemap_create 32 with input := (List.replicate 32 0).set 3 200 } 32).2.output
        (vitemap_compress { vitemap_create 32 with input := (List.replicate 32 0).set 3 200 } 32).1
        (List.replicate 32 5)).take 32
      = { vitemap_create 32 with input := (List.replicate 32 0).set 3 200 }.input.take 32
    ∧ ∀ b ∈ ((vitemap_decompress
        (vitemap_compress { vitemap_create 32 with input := (List.replicate 32 0).set 3 200 } 32).2.output
        (vitemap_compress { vitemap_create 32 with input := (List.replicate 32 0).set 3 200 } 32).1
        (List.replicate 32 5)).take
          (32 * { vitemap_create 32 with input := (List.replicate 32 0).set 3 200 }.num_buckets)).drop 32,
        b = 0 :=
  C1_roundtrip_amended { vitemap_create 32 with input := (List.replicate 32 0).set 3 200 } 32
    (List.replicate 32 5) (by decide) (by decide) (by decide) (by decide) (by decide)

theorem testBit_255 (k : Nat) (hk : k < 8) : Nat.testBit 255 k = true := by
  revert hk
  revert k
  decide

theorem chunkBit_invert (chunk : List Nat) (p : Nat) (h32 : chunk.length = 32)
    (hp : p < 256) :
    chunkBit (invert_256 chunk) p = !(chunkBit chunk p) := by
  have hidx : p / 8 < 32 := by omega
  rw [chunkBit, chunkBit]
  rw [List.getD_eq_getElem (invert_256 chunk) 0 (by rw [length_invert_256, h32]; exact hidx)]
  rw [List.getD_eq_getElem chunk 0 (by rw [h32]; exact hidx)]
  simp only [invert_256, List.getElem_map]
  rw [Nat.testBit_xor, testBit_255 (p % 8) (by omega), Bool.xor_true]

/-- C2. Classifier partition: the popcount ranges `c < 32`, `c > 224` and
`32 ≤ c ≤ 224` partition `[0, 256]`, and in each range `vitemap_compress`
emits exactly one record of the corresponding shape: sparse header `c`
(category 0) with the `c` set-bit positions; dense header `(256-c) | 0x40`
(category 1) with the `256-c` clear-bit positions; raw header `32 | 0x80`
(category 2) with the 32 chunk bytes verbatim. -/
theorem C2_classifier_partition (chunk : List Nat) (h32 : chunk.length = 32)
    (hb : ∀ b ∈ chunk, b < 256) :
    popcount_256 chunk ≤ 256
    ∧ (popcount_256 chunk < 32 →
      encode_bucket chunk = popcount_256 chunk :: extract_and_compact_256 chunk
      ∧ (encode_bucket chunk).headD 0 / 64 = 0
      ∧ (encode_bucket chunk).headD 0 % 64 = popcount_256 chunk
      ∧ (encode_bucket chunk).tail.length = popcount_256 chunk
      ∧ ∀ p, p ∈ (encode_bucket chunk).tail ↔ p < 256 ∧ chunkBit chunk p = true)
    ∧ (224 < popcount_256 chunk →
      encode_bucket chunk = ((256 - popcount_256 chunk) ||| 64)
          :: extract_and_compact_256 (invert_256 chunk)
      ∧ (encode_bucket chunk).headD 0 / 64 = 1
      ∧ (encode_bucket chunk).headD 0 % 64 = 256 - popcount_256 chunk
      ∧ (encode_bucket chunk).tail.length = 256 - popcount_256 chunk
      ∧ ∀ p, p ∈ (encode_bucket chunk).tail ↔ p < 256 ∧ chunkBit chunk p = false)
    ∧ (32 ≤ popcount_256 chunk → popcount_256 chunk ≤ 224 →
      encode_bucket chunk = (32 ||| 128) :: chunk
      ∧ (encode_bucket chunk).headD 0 / 64 = 2
      ∧ (encode_bucket chunk).headD 0 % 64 = 32
      ∧ (encode_bucket chunk).tail = chunk) := by
  have hple : popcount_256 chunk ≤ 256 := popcount_256_le chunk h32
  have hinvlen : (invert_256 chunk).length = 32 := by rw [length_invert_256, h32]
  refine ⟨hple, ?_, ?_, ?_⟩
  · intro h1
    have henc : encode_bucket chunk
        = popcount_256 chunk :: extract_and_compact_256 chunk := by
      rw [encode_bucket]
      simp only [BUCKET_SIZE_U8_eq]
      rw [if_pos h1]
    rw [henc]
    refine ⟨rfl, ?_, ?_, ?_, ?_⟩
    · simp only [List.headD_cons]
      omega
    · simp only [List.headD_cons]
      omega
    · simp only [List.tail_cons]
      exact length_extract_and_compact_256 chunk h32
    · intro p
      simp only [List.tail_cons]
      exact mem_extract_and_compact_256 chunk p
  · intro h2
    have henc : encode_bucket chunk
        = ((256 - popcount_256 chunk) ||| 64)
            :: extract_and_compact_256 (invert_256 chunk) := by
      rw [encode_bucket]
      simp only [BUCKET_SIZE_U8_eq, BUCKET_SIZE_eq]
      rw [if_neg (by omega), if_pos (by omega)]
    have hlor : (256 - popcount_256 chunk) ||| 64 = 64 + (256 - popcount_256 chunk) :=
      lor_64_eq _ (by omega)
    rw [henc]
    refine ⟨rfl, ?_, ?_, ?_, ?_⟩
    · simp only [List.headD_cons, hlor]
      omega
    · simp only [List.headD_cons, hlor]
      omega
    · simp only [List.tail_cons]
      rw [length_extract_and_compact_256 (invert_256 chunk) hinvlen,
        popcount_256_invert_256 chunk h32 hb]
    · intro p
      simp only [List.tail_cons]
      rw [mem_extract_and_compact_256 (invert_256 chunk) p]
      constructor
      · rintro ⟨hp, hbit⟩
        refine ⟨hp, ?_⟩
        rw [chunkBit_invert chunk p h32 hp] at hbit
        simpa using hbit
      · rintro ⟨hp, hbit⟩
        refine ⟨hp, ?_⟩
        rw [chunkBit_invert chunk p h32 hp, hbit]
        rfl
  · intro h3 h4
    have henc : encode_bucket chunk = (32 ||| 128) :: chunk := by
      rw [encode_bucket]
      simp only [BUCKET_SIZE_U8_eq, BUCKET_SIZE_eq]
      rw [if_neg (by omega), if_neg (by omega)]
    rw [henc]
    have h160 : (32 : Nat) ||| 128 = 160 := by decide
    refine ⟨rfl, ?_, ?_, rfl⟩
    · simp only [List.headD_cons, h160]
    · simp only [List.headD_cons, h160]

/-- Witness for C2 at three concrete chunks, one per category. -/
theorem C2_classifier_partition_witness :
    (encode_bucket ((List.replicate 32 0).set 15 16)
        = popcount_256 ((List.replicate 32 0).set 15 16)
            :: extract_and_compact_256 ((List.replicate 32 0).set 15 16)
      ∧ (encode_bucket ((List.replicate 32 0).set 15 16)).headD 0 / 64 = 0)
    ∧ (encode_bucket (List.replicate 32 255)
        = ((256 - popcount_256 (List.replicate 32 255)) ||| 64)
            :: extract_and_compact_256 (invert_256 (List.replicate 32 255))
      ∧ (encode_bucket (List.replicate 32 255)).headD 0 / 64 = 1)
    ∧ (encode_bucket (List.replicate 32 170) = (32 ||| 128) :: List.replicate 32 170
      ∧ (encode_bucket (List.replicate 32 170)).headD 0 / 64 = 2) :=
  have hsp := C2_classifier_partition ((List.replicate 32 0).set 15 16)
    (by decide) (by decide)
  have hds := C2_classifier_partition (List.replicate 32 255) (by decide) (by decide)
  have hrw := C2_classifier_partition (List.replicate 32 170) (by decide) (by decide)
  ⟨⟨(hsp.2.1 (by decide)).1, (hsp.2.1 (by decide)).2.1⟩,
   ⟨(hds.2.2.1 (by decide)).1, (hds.2.2.1 (by decide)).2.1⟩,
   ⟨(hrw.2.2.2 (by decide) (by decide)).1, (hrw.2.2.2 (by decide) (by decide)).2.1⟩⟩

/-- C3 counterexample. `vitemap_decompress` has no error channel (its C
return type is `void`) and its switch has no `case 3`: on a stream whose
only record carries the reserved category bits 11 (header `0xC0`) it
returns normally with the output buffer untouched instead of failing
with a corrupt-stream error. -/
theorem C3_counterexample :
    vitemap_decompress [0, 0, 0, 0, 192] 5 (List.replicate 32 7)
      = List.replicate 32 7 := by
  decide

/-- C3 (amended). On a record whose header has category bits 11 the
decoder does not decode the record and reports no error: the iteration
leaves the corresponding 32-byte output chunk with its prior contents,
skips the header-implied payload length, and continues with the next
record. -/
theorem C3_reserved_skips (hd : Nat) (rest out : List Nat) (f r : Nat)
    (hcat : hd / 64 = 3) :
    decode_loop (f + 1) (r + 1) (hd :: rest) out
      = out.take 32 ++
          decode_loop f (r - hd % 64) (rest.drop (hd % 64)) (out.drop 32) := by
  rw [decode_loop_succ]
  simp only [List.headD_cons, List.tail_cons, BUCKET_SIZE_U8_eq]
  congr 1
  rw [decode_step, hcat]
  rw [if_neg (by omega), if_neg (by omega), if_neg (by omega)]
  simp only [BUCKET_SIZE_U8_eq]

/-- Witness for C3's amended statement at the concrete reserved header
`0xC0` (category 3, payload length 0). -/
theorem C3_reserved_skips_witness :
    decode_loop 1 1 [192] (List.replicate 32 7)
      = (List.replicate 32 7).take 32 ++
          decode_loop 0 (0 - 192 % 64) (List.drop (192 % 64) [])
            ((List.replicate 32 7).drop 32) :=
  C3_reserved_skips 192 [] (List.replicate 32 7) 0 0 (by decide)

/-- C4 counterexample. `vitemap_compress` contains no size check: with a
one-bucket context (`max_size = 32`) and declared size 33 it does not
reject the request; it writes the frame (prefix `33` plus the zero
bucket's record) into the output buffer, which therefore changes. -/
theorem C4_counterexample :
    (vitemap_create 32).max_size < 33
    ∧ (vitemap_compress (vitemap_create 32) 33).1 = 5
    ∧ (vitemap_compress (vitemap_create 32) 33).2.output.take 5 = [33, 0, 0, 0, 0]
    ∧ (vitemap_compress (vitemap_create 32) 33).2.output ≠ (vitemap_create 32).output := by
  decide

/-- C4 (amended). For `size > max_size` the compressor performs no
rejection and no truncation of its loop: it encodes exactly the same
`num_buckets` records as a compress of the full buffer and returns the
same size; only the 4-byte declared-size prefix differs, recording the
oversized `size`.  The bound `size ≤ max_size` is a documented caller
precondition (src/vite.h), not a checked error. -/
theorem C4_no_size_check (vm : Vitemap) (size : Nat) (h : vm.max_size < size) :
    (vitemap_compress vm size).1 = (vitemap_compress vm vm.max_size).1
    ∧ (vitemap_compress vm size).2.output.drop 4
        = (vitemap_compress vm vm.max_size).2.output.drop 4
    ∧ (vitemap_compress vm size).2.output.take 4 = u32_le size := by
  have hu32 : ∀ n : Nat, (u32_le n).length = 4 := fun n => rfl
  refine ⟨?_, ?_, ?_⟩
  · simp only [vitemap_compress, List.length_append, hu32]
  · simp only [vitemap_compress]
    rw [List.append_assoc, List.append_assoc]
    rw [show (4 : Nat) = (u32_le size).length from rfl, List.drop_left]
    rw [show (u32_le size).length = (u32_le vm.max_size).length from rfl, List.drop_left]
    simp only [List.length_append, hu32]
  · simp only [vitemap_compress]
    rw [List.append_assoc]
    rw [show (4 : Nat) = (u32_le size).length from rfl, List.take_left]

/-- Witness for C4's amended statement at the concrete context
`vitemap_create 32` and oversized request 33. -/
theorem C4_no_size_check_witness :
    (vitemap_compress (vitemap_create 32) 33).1
        = (vitemap_compress (vitemap_create 32) (vitemap_create 32).max_size).1
    ∧ (vitemap_compress (vitemap_create 32) 33).2.output.drop 4
        = (vitemap_compress (vitemap_create 32) (vitemap_create 32).max_size).2.output.drop 4
    ∧ (vitemap_compress (vitemap_create 32) 33).2.output.take 4 = u32_le 33 :=
  C4_no_size_check (vitemap_create 32) 33 (by decide)

/-- C5 counterexample. Compressing 32 bytes of `0xAA` does not produce the
header byte `0x9F` stated by the spec's S4 example: the raw header is
`32 | 0x80 = 0xA0`. -/
theorem C5_counterexample :
    (vitemap_compress { vitemap_create 32 with input := List.replicate 32 170 } 32).2.output.take 37
      ≠ [32, 0, 0, 0, 159] ++ List.replicate 32 170 := by
  decide

/-- C5 (amended). Compressing a 32-byte input of `0xAA` bytes (popcount
128) produces exactly the 37-byte frame `20 00 00 00`, header `0xA0`
(category 10, length 32), and the 32 payload bytes `0xAA`. -/
theorem C5_raw_example :
    (vitemap_compress { vitemap_create 32 with input := List.replicate 32 170 } 32).1 = 37
    ∧ (vitemap_compress { vitemap_create 32 with input := List.replicate 32 170 } 32).2.output.take 37
        = [32, 0, 0, 0, 160] ++ List.replicate 32 170 := by
  decide

/-- C6. Size prefix and peek: the first 4 bytes of any produced frame are
the little-endian declared size `N`, and
`vitemap_extract_decompressed_sizes` on the frame returns
`data_size = N` and `buffer_size = ceil(N/32) * 32`. -/
theorem C6_size_prefix_and_peek (vm : Vitemap) (N : Nat) (hN : N < 4294967296) :
    (vitemap_compress vm N).2.output.take 4 = u32_le N
    ∧ read_u32_le (vitemap_compress vm N).2.output = N
    ∧ vitemap_extract_decompressed_sizes (vitemap_compress vm N).2.output
        = (N, ((N + 31) / 32) * 32) := by
  have hout : (vitemap_compress vm N).2.output
      = u32_le N ++ (encode_buckets vm.num_buckets vm.input
          ++ vm.output.drop (u32_le N ++ encode_buckets vm.num_buckets vm.input).length) := by
    simp only [vitemap_compress]
    rw [List.append_assoc]
  have hread : read_u32_le (vitemap_compress vm N).2.output = N := by
    rw [hout]
    simp only [u32_le, List.cons_append, List.nil_append, read_u32_le,
      List.getD_cons_zero, List.getD_cons_succ]
    omega
  refine ⟨?_, hread, ?_⟩
  · rw [hout]
    rw [show (4 : Nat) = (u32_le N).length from rfl, List.take_left]
  · rw [vitemap_extract_decompressed_sizes]
    simp only [BUCKET_SIZE_U8_eq, hread]
    by_cases hz : N % 32 = 0
    · simp only [hz, gt_iff_lt, Nat.lt_irrefl, if_false]
      have : N / 32 + 0 = N / 32 := by omega
      rw [Prod.mk.injEq]
      refine ⟨rfl, ?_⟩
      omega
    · rw [if_pos (by omega)]
      rw [Prod.mk.injEq]
      refine ⟨rfl, ?_⟩
      omega

/-- Witness for C6 at a concrete two-bucket compress of size 50. -/
theorem C6_size_prefix_and_peek_witness :
    (vitemap_compress (vitemap_create 50) 50).2.output.take 4 = u32_le 50
    ∧ read_u32_le (vitemap_compress (vitemap_create 50) 50).2.output = 50
    ∧ vitemap_extract_decompressed_sizes (vitemap_compress (vitemap_create 50) 50).2.output
        = (50, ((50 + 31) / 32) * 32) :=
  C6_size_prefix_and_peek (vitemap_create 50) 50 (by decide)

/-- C7. Sparse payload ordering and bit convention: a sparse record's
payload is the strictly ascending list of the chunk's set-bit positions,
a position `p < 256` meaning bit `p % 8` (LSB first) of byte `p / 8`;
and the concrete 32-byte input that is zero except byte 15 = `0x10`
compresses to prefix `20 00 00 00`, header `0x01`, payload `0x7C`. -/
theorem C7_sparse_payload :
    (∀ chunk : List Nat, chunk.length = 32 → popcount_256 chunk < 32 →
      encode_bucket chunk = popcount_256 chunk :: extract_and_compact_256 chunk
      ∧ List.Pairwise (· < ·) (extract_and_compact_256 chunk)
      ∧ (∀ p, p ∈ extract_and_compact_256 chunk ↔
            p < 256 ∧ (chunk.getD (p / 8) 0).testBit (p % 8) = true))
    ∧ (vitemap_compress { vitemap_create 32 with
          input := (List.replicate 32 0).set 15 16 } 32).1 = 6
    ∧ (vitemap_compress { vitemap_create 32 with
          input := (List.replicate 32 0).set 15 16 } 32).2.output.take 6
        = [32, 0, 0, 0, 1, 124] := by
  refine ⟨?_, by decide, by decide⟩
  intro chunk h32 hc
  refine ⟨?_, pairwise_extract_and_compact_256 chunk, ?_⟩
  · rw [encode_bucket]
    simp only [BUCKET_SIZE_U8_eq]
    rw [if_pos hc]
  · intro p
    simpa [chunkBit] using mem_extract_and_compact_256 chunk p

/-- Witness for C7's universally quantified part at the single-bit chunk. -/
theorem C7_sparse_payload_witness :
    encode_bucket ((List.replicate 32 0).set 15 16)
        = popcount_256 ((List.replicate 32 0).set 15 16)
            :: extract_and_compact_256 ((List.replicate 32 0).set 15 16)
    ∧ List.Pairwise (· < ·) (extract_and_compact_256 ((List.replicate 32 0).set 15 16))
    ∧ (∀ p, p ∈ extract_and_compact_256 ((List.replicate 32 0).set 15 16) ↔
          p < 256 ∧ (((List.replicate 32 0).set 15 16).getD (p / 8) 0).testBit (p % 8) = true) :=
  C7_sparse_payload.1 ((List.replicate 32 0).set 15 16) (by decide) (by decide)

/-- C8. Commutativity of inversion: a payload of `k ≤ 31` positions
decoded under category 01 yields the bitwise complement of the chunk the
same payload yields under category 00. -/
theorem C8_inversion_commutes (P out : List Nat)
    (hk : P.length ≤ 31) (hv : ∀ v ∈ P, v < 256) :
    (vitemap_decompress (u32_le 32 ++ ((P.length ||| 64) :: P)) (5 + P.length) out).take 32
      = invert_256
          ((vitemap_decompress (u32_le 32 ++ (P.length :: P)) (5 + P.length) out).take 32) := by
  have hsz : 5 + P.length - 4 = P.length + 1 := by omega
  have hbs : P.length % 64 = P.length := Nat.mod_eq_of_lt (by omega)
  have htake : P.take (P.length % 64) = P := by
    rw [hbs]
    exact List.take_length P
  have hdense : (vitemap_decompress (u32_le 32 ++ ((P.length ||| 64) :: P)) (5 + P.length) out)
      = invert_256 (expand_and_scatter_256 P) ++ out.drop 32 := by
    rw [vitemap_decompress, hsz]
    rw [show (4 : Nat) = (u32_le 32).length from rfl, List.drop_left]
    have hlor : P.length ||| 64 = 64 + P.length := lor_64_eq P.length (by omega)
    rw [hlor, decode_loop_succ]
    simp only [List.headD_cons, List.tail_cons, BUCKET_SIZE_U8_eq]
    have h64 : (64 + P.length) % 64 = P.length := by omega
    rw [h64]
    have hstep : decode_step (64 + P.length) P out
        = invert_256 (expand_and_scatter_256 P) := by
      rw [decode_step]
      have hcat : (64 + P.length) / 64 = 1 := by omega
      rw [hcat]
      rw [if_neg (by omega)]
      simp only [if_true, reduceIte, h64]
      rw [List.take_length]
    rw [hstep, show P.length - P.length = 0 from by omega, decode_loop_zero]
  have hsparse : (vitemap_decompress (u32_le 32 ++ (P.length :: P)) (5 + P.length) out)
      = expand_and_scatter_256 P ++ out.drop 32 := by
    rw [vitemap_decompress, hsz]
    rw [show (4 : Nat) = (u32_le 32).length from rfl, List.drop_left]
    rw [decode_loop_succ]
    simp only [List.headD_cons, List.tail_cons, BUCKET_SIZE_U8_eq]
    rw [hbs]
    have hstep : decode_step P.length P out = expand_and_scatter_256 P := by
      rw [decode_step]
      have hcat : P.length / 64 = 0 := Nat.div_eq_of_lt (by omega)
      rw [hcat]
      simp only [if_true, reduceIte, hbs]
      rw [List.take_length]
    rw [hstep, show P.length - P.length = 0 from by omega, decode_loop_zero]
  rw [hdense, hsparse]
  have h1 : (invert_256 (expand_and_scatter_256 P) ++ out.drop 32).take 32
      = invert_256 (expand_and_scatter_256 P) := by
    rw [show (32 : Nat) = (invert_256 (expand_and_scatter_256 P)).length from by
      rw [length_invert_256, length_expand_and_scatter_256]]
    exact List.take_left _ _
  have h2 : (expand_and_scatter_256 P ++ out.drop 32).take 32
      = expand_and_scatter_256 P := by
    rw [show (32 : Nat) = (expand_and_scatter_256 P).length from
      (length_expand_and_scatter_256 P).symm]
    exact List.take_left _ _
  rw [h1, h2]

/-- Witness for C8 at the two-position payload `[7, 248]` (spec example
S6's clear-bit positions). -/
theorem C8_inversion_commutes_witness :
    (vitemap_decompress (u32_le 32 ++ (([7, 248].length ||| 64) :: [7, 248]))
        (5 + [7, 248].length) (List.replicate 40 9)).take 32
      = invert_256
          ((vitemap_decompress (u32_le 32 ++ ([7, 248].length :: [7, 248]))
              (5 + [7, 248].length) (List.replicate 40 9)).take 32) :=
  C8_inversion_commutes [7, 248] (List.replicate 40 9) (by decide) (by decide)

/-- C9. Per-chunk size bound: every record is one header byte plus at most
32 payload bytes, so its length is at most 33, and the length field
written in the header byte (its low six bits) is at most 32. -/
theorem C9_record_size_bound (chunk : List Nat) (h32 : chunk.length = 32)
    (hb : ∀ b ∈ chunk, b < 256) :
    (encode_bucket chunk).length ≤ 33
    ∧ (encode_bucket chunk).headD 0 % 64 ≤ 32 := by
  have hple := popcount_256_le chunk h32
  have hinvlen : (invert_256 chunk).length = 32 := by rw [length_invert_256, h32]
  rw [encode_bucket]
  simp only [BUCKET_SIZE_U8_eq, BUCKET_SIZE_eq]
  by_cases h1 : popcount_256 chunk < 32
  · rw [if_pos h1]
    constructor
    · rw [List.length_cons, length_extract_and_compact_256 chunk h32]
      omega
    · simp only [List.headD_cons]
      omega
  · rw [if_neg h1]
    by_cases h2 : 256 - popcount_256 chunk < 32
    · rw [if_pos h2]
      have hlor : (256 - popcount_256 chunk) ||| 64 = 64 + (256 - popcount_256 chunk) :=
        lor_64_eq _ (by omega)
      constructor
      · rw [List.length_cons, length_extract_and_compact_256 (invert_256 chunk) hinvlen,
          popcount_256_invert_256 chunk h32 hb]
        omega
      · simp only [List.headD_cons, hlor]
        omega
    · rw [if_neg h2]
      have h160 : (32 : Nat) ||| 128 = 160 := by decide
      constructor
      · rw [List.length_cons, h32]
      · simp only [List.headD_cons, h160]
        omega

/-- Witness for C9 at a raw-category chunk (the largest record shape). -/
theorem C9_record_size_bound_witness :
    (encode_bucket (List.replicate 32 170)).length ≤ 33
    ∧ (encode_bucket (List.replicate 32 170)).headD 0 % 64 ≤ 32 :=
  C9_record_size_bound (List.replicate 32 170) (by decide) (by decide)

/-- C10. Frame effect of compression: `vitemap_compress` only writes the
output buffer and the scratch bucket; the input buffer and the fields
`max_size`, `num_buckets`, `max_compressed_size` (and `output_size`,
which the function never touches) are unchanged, so the context can be
reused. -/
theorem C10_compress_frame_effect (vm : Vitemap) (size : Nat) :
    (vitemap_compress vm size).2.input = vm.input
    ∧ (vitemap_compress vm size).2.max_size = vm.max_size
    ∧ (vitemap_compress vm size).2.num_buckets = vm.num_buckets
    ∧ (vitemap_compress vm size).2.max_compressed_size = vm.max_compressed_size
    ∧ (vitemap_compress vm size).2.output_size = vm.output_size := by
  simp [vitemap_compress]
